import Mathlib

/-!
# Verification of the protoc-plugin-by-closure bridge

This file shallowly embeds the pieces of the repository that its claims are
about, and proves or refutes each claim.

Byte buffers are modelled as `List Nat`, each element a byte value.  The
protobuf wire walker (`read_protobuf_fields` / `write_protobuf_field` of the
protobuf-core dependency, not part of this repository's sources) is modelled
from the spec: a tag varint whose quotient by 8 is the field number and whose
remainder is the wire type, followed by a type-appropriate payload — a varint,
an 8-byte fixed span, a length-prefixed span, or a 4-byte fixed span; any other
wire type, a zero field number, or truncation is a decoding error.
-/

namespace ProtocPluginByClosure

/-- Modelled from the spec: a wire value is one of varint, fixed-width
(64-bit or 32-bit), or a length-delimited byte span. -/
inductive FieldValue : Type where
  | varint : Nat → FieldValue
  | i64 : List Nat → FieldValue
  | len : List Nat → FieldValue
  | i32 : List Nat → FieldValue
deriving DecidableEq, Repr

/-- A wire field: a (field number, wire value) observation. -/
structure Field : Type where
  num : Nat
  value : FieldValue
deriving DecidableEq, Repr

/-- Modelled from the spec: base-128 varint decoding (low groups first; a byte
with the high bit set means the varint continues). Fails on truncation. -/
def readVarint : List Nat → Option (Nat × List Nat)
  | [] => none
  | b :: rest =>
    if b < 128 then some (b, rest)
    else
      match readVarint rest with
      | none => none
      | some (v, rest1) => some (b % 128 + 128 * v, rest1)

/-- Take exactly `n` bytes from the front, failing when fewer are available. -/
def takeExact (n : Nat) (l : List Nat) : Option (List Nat × List Nat) :=
  if h : n ≤ l.length then some (l.take n, l.drop n) else none

/-- Modelled from the spec: decode one wire field from the front of a buffer.
Wire types: 0 varint, 1 eight-byte span, 2 length-delimited, 5 four-byte span;
everything else (group markers, reserved types, field number 0) is an error. -/
def readField (l : List Nat) : Option (Field × List Nat) :=
  match readVarint l with
  | none => none
  | some (tag, rest) =>
    let num := tag / 8
    let wt := tag % 8
    if num = 0 then none
    else if wt = 0 then
      match readVarint rest with
      | none => none
      | some (v, rest1) => some (⟨num, .varint v⟩, rest1)
    else if wt = 1 then
      match takeExact 8 rest with
      | none => none
      | some (bs, rest1) => some (⟨num, .i64 bs⟩, rest1)
    else if wt = 2 then
      match readVarint rest with
      | none => none
      | some (n, rest1) =>
        match takeExact n rest1 with
        | none => none
        | some (bs, rest2) => some (⟨num, .len bs⟩, rest2)
    else if wt = 5 then
      match takeExact 4 rest with
      | none => none
      | some (bs, rest1) => some (⟨num, .i32 bs⟩, rest1)
    else none

theorem readVarint_length {l rest : List Nat} {v : Nat}
    (h : readVarint l = some (v, rest)) : rest.length < l.length := by
  induction l generalizing v rest with
  | nil => simp [readVarint] at h
  | cons b bs ih =>
    simp only [readVarint] at h
    split at h
    · cases h; simp
    · cases hrec : readVarint bs with
      | none => rw [hrec] at h; cases h
      | some p =>
        rw [hrec] at h
        cases p with
        | mk v1 rest1 =>
          cases h
          exact Nat.lt_trans (ih hrec) (by simp)

theorem takeExact_length {n : Nat} {l bs rest : List Nat}
    (h : takeExact n l = some (bs, rest)) : rest.length ≤ l.length := by
  unfold takeExact at h
  split at h
  · cases h; simp
  · cases h

theorem readField_length {l rest : List Nat} {f : Field}
    (h : readField l = some (f, rest)) : rest.length < l.length := by
  unfold readField at h
  cases htag : readVarint l with
  | none => rw [htag] at h; cases h
  | some p =>
    rw [htag] at h
    cases p with
    | mk tag rest0 =>
      have h0 : rest0.length < l.length := readVarint_length htag
      simp only at h
      split at h
      · cases h
      · split at h
        · cases hv : readVarint rest0 with
          | none => rw [hv] at h; cases h
          | some p1 =>
            rw [hv] at h
            cases p1 with
            | mk v rest1 =>
              cases h
              exact Nat.lt_trans (readVarint_length hv) h0
        · split at h
          · cases ht : takeExact 8 rest0 with
            | none => rw [ht] at h; cases h
            | some p1 =>
              rw [ht] at h
              cases p1 with
              | mk bs1 rest1 =>
                cases h
                exact Nat.lt_of_le_of_lt (takeExact_length ht) h0
          · split at h
            · cases hv : readVarint rest0 with
              | none => rw [hv] at h; cases h
              | some p1 =>
                rw [hv] at h
                cases p1 with
                | mk n rest1 =>
                  simp only at h
                  cases ht : takeExact n rest1 with
                  | none => rw [ht] at h; cases h
                  | some p2 =>
                    rw [ht] at h
                    cases p2 with
                    | mk bs2 rest2 =>
                      cases h
                      exact Nat.lt_trans
                        (Nat.lt_of_le_of_lt (takeExact_length ht)
                          (readVarint_length hv)) h0
            · split at h
              · cases ht : takeExact 4 rest0 with
                | none => rw [ht] at h; cases h
                | some p1 =>
                  rw [ht] at h
                  cases p1 with
                  | mk bs1 rest1 =>
                    cases h
                    exact Nat.lt_of_le_of_lt (takeExact_length ht) h0
              · cases h

/-- Modelled from the spec: decode the whole buffer as a sequence of wire
fields; any field failing to decode fails the whole scan. -/
def readFields (l : List Nat) : Option (List Field) :=
  match l with
  | [] => some []
  | b :: bs =>
    match h : readField (b :: bs) with
    | none => none
    | some (f, rest) =>
      match readFields rest with
      | none => none
      | some fs => some (f :: fs)
termination_by l.length
decreasing_by exact readField_length h

/-- Model of Rust's `String::from_utf8` applied to a byte list: strict UTF-8
decoding to a list of Unicode scalar values.  Rejects truncated sequences,
stray or missing continuation bytes, overlong encodings, surrogate code
points, and values above 0x10FFFF, exactly as Rust does.  A decoded `String`
is represented by its scalar-value sequence. -/
def utf8Decode : List Nat → Option (List Nat)
  | [] => some []
  | b :: rest =>
    if b < 128 then
      (utf8Decode rest).map (fun s => b :: s)
    else if b < 194 then none
    else if b < 224 then
      match rest with
      | b1 :: rest1 =>
        if 128 ≤ b1 ∧ b1 < 192 then
          (utf8Decode rest1).map (fun s => ((b - 192) * 64 + (b1 - 128)) :: s)
        else none
      | [] => none
    else if b < 240 then
      match rest with
      | b1 :: b2 :: rest2 =>
        if (if b = 224 then 160 else 128) ≤ b1 ∧ b1 < (if b = 237 then 160 else 192) ∧
            128 ≤ b2 ∧ b2 < 192 then
          (utf8Decode rest2).map
            (fun s => ((b - 224) * 4096 + (b1 - 128) * 64 + (b2 - 128)) :: s)
        else none
      | _ => none
    else if b < 245 then
      match rest with
      | b1 :: b2 :: b3 :: rest3 =>
        if (if b = 240 then 144 else 128) ≤ b1 ∧ b1 < (if b = 244 then 144 else 192) ∧
            128 ≤ b2 ∧ b2 < 192 ∧ 128 ≤ b3 ∧ b3 < 192 then
          (utf8Decode rest3).map
            (fun s => ((b - 240) * 262144 + (b1 - 128) * 4096 + (b2 - 128) * 64 + (b3 - 128)) :: s)
        else none
      | _ => none
    else none

/-- Loop body of `find_last_string_field` in `src/bin/src/main.rs`: walk the
remaining bytes field by field, keeping the latest successfully decoded string
for the target field number; a wire decoding failure or a UTF-8 failure on a
matching length-delimited payload aborts the whole scan with an error. -/
def find_last_string_field_aux (l : List Nat) (target : Nat)
    (result : Option (List Nat)) : Except Unit (Option (List Nat)) :=
  match l with
  | [] => .ok result
  | b :: bs =>
    match h : readField (b :: bs) with
    | none => .error ()
    | some (f, rest) =>
      if f.num = target then
        match f.value with
        | .len bytes =>
          match utf8Decode bytes with
          | none => .error ()
          | some s => find_last_string_field_aux rest target (some s)
        | _ => find_last_string_field_aux rest target result
      else find_last_string_field_aux rest target result
termination_by l.length
decreasing_by all_goals exact readField_length h

/-- Embedding of `find_last_string_field` from `src/bin/src/main.rs`: errors
are collapsed to `Unit` (the Rust code only propagates them opaquely). -/
def find_last_string_field (input : List Nat) (target : Nat) :
    Except Unit (Option (List Nat)) :=
  find_last_string_field_aux input target none

/-- The length-delimited payload a field contributes for a target number, if
any: its `len` bytes when the number matches, nothing otherwise. -/
def lenPayload (target : Nat) (f : Field) : Option (List Nat) :=
  if f.num = target then
    match f.value with
    | .len b => some b
    | _ => none
  else none

/-- The payload of the last length-delimited occurrence of the target field
number in a decoded field sequence, if one exists. -/
def lastLenOf (fs : List Field) (target : Nat) : Option (List Nat) :=
  match fs with
  | [] => none
  | f :: rest =>
    match lastLenOf rest target with
    | some b => some b
    | none => lenPayload target f

/-- The scanner's loop replayed over an already decoded field sequence. -/
def scanFields (fs : List Field) (target : Nat) (acc : Option (List Nat)) :
    Except Unit (Option (List Nat)) :=
  match fs with
  | [] => .ok acc
  | f :: rest =>
    match lenPayload target f with
    | none => scanFields rest target acc
    | some b =>
      match utf8Decode b with
      | none => .error ()
      | some s => scanFields rest target (some s)

theorem find_last_string_field_aux_eq (target : Nat) :
    ∀ (n : Nat) (l : List Nat), l.length ≤ n → ∀ acc,
      find_last_string_field_aux l target acc =
        match readFields l with
        | none => .error ()
        | some fs => scanFields fs target acc := by
  intro n
  induction n with
  | zero =>
    intro l hl acc
    have hnil : l = [] := List.eq_nil_of_length_eq_zero (Nat.le_zero.mp hl)
    subst hnil
    simp [find_last_string_field_aux, readFields, scanFields]
  | succ n ih =>
    intro l hl acc
    cases l with
    | nil => simp [find_last_string_field_aux, readFields, scanFields]
    | cons b bs =>
      rw [find_last_string_field_aux, readFields]
      cases hf : readField (b :: bs) with
      | none => simp
      | some p =>
        cases p with
        | mk f rest =>
          have hrest : rest.length ≤ n :=
            Nat.lt_succ_iff.mp (Nat.lt_of_lt_of_le (readField_length hf) hl)
          simp only
          by_cases hnum : f.num = target
          · cases hval : f.value with
            | len bytes =>
              cases hu : utf8Decode bytes with
              | none =>
                simp only [hnum, if_true]
                cases hfs : readFields rest with
                | none => simp [scanFields, lenPayload, hnum, hval, hu]
                | some fs => simp [scanFields, lenPayload, hnum, hval, hu]
              | some s =>
                simp only [hnum, if_true]
                rw [hu]
                simp only
                rw [ih rest hrest (some s)]
                cases hfs : readFields rest with
                | none => simp
                | some fs => simp [scanFields, lenPayload, hnum, hval, hu]
            | varint v =>
              simp only [hnum, if_true]
              rw [ih rest hrest acc]
              cases hfs : readFields rest with
              | none => simp
              | some fs => simp [scanFields, lenPayload, hnum, hval]
            | i64 bs1 =>
              simp only [hnum, if_true]
              rw [ih rest hrest acc]
              cases hfs : readFields rest with
              | none => simp
              | some fs => simp [scanFields, lenPayload, hnum, hval]
            | i32 bs1 =>
              simp only [hnum, if_true]
              rw [ih rest hrest acc]
              cases hfs : readFields rest with
              | none => simp
              | some fs => simp [scanFields, lenPayload, hnum, hval]
          · simp only [hnum, if_false]
            rw [ih rest hrest acc]
            cases hfs : readFields rest with
            | none => simp
            | some fs => simp [scanFields, lenPayload, hnum]

theorem scanFields_ok (target : Nat) (fs : List Field)
    (h : ∀ f ∈ fs, ∀ b, lenPayload target f = some b → (utf8Decode b).isSome) :
    ∀ acc, scanFields fs target acc =
      .ok (match lastLenOf fs target with
           | none => acc
           | some b => utf8Decode b) := by
  induction fs with
  | nil => intro acc; simp [scanFields, lastLenOf]
  | cons f rest ih =>
    intro acc
    have hrest : ∀ g ∈ rest, ∀ b, lenPayload target g = some b → (utf8Decode b).isSome :=
      fun g hg => h g (List.mem_cons_of_mem f hg)
    rw [scanFields]
    cases hp : lenPayload target f with
    | none =>
      rw [ih hrest acc, lastLenOf]
      cases hlast : lastLenOf rest target with
      | none => simp [hp]
      | some b => simp
    | some b =>
      have hb := h f (List.mem_cons_self f rest) b hp
      cases hu : utf8Decode b with
      | none => rw [hu] at hb; simp at hb
      | some s =>
        simp only
        rw [hu]
        simp only
        rw [ih hrest (some s), lastLenOf]
        cases hlast : lastLenOf rest target with
        | none => simp [hp, hu]
        | some b1 => simp

theorem scanFields_error (target : Nat) (fs : List Field)
    (h : ∃ f ∈ fs, ∃ b, lenPayload target f = some b ∧ utf8Decode b = none) :
    ∀ acc, scanFields fs target acc = .error () := by
  induction fs with
  | nil => obtain ⟨f, hf, _⟩ := h; simp at hf
  | cons g rest ih =>
    intro acc
    obtain ⟨f, hf, b, hp, hu⟩ := h
    rw [scanFields]
    rcases List.mem_cons.mp hf with hfg | hfr
    · subst hfg
      simp [hp, hu]
    · cases hpg : lenPayload target g with
      | none => exact ih ⟨f, hfr, b, hp, hu⟩ acc
      | some bg =>
        simp only
        cases hug : utf8Decode bg with
        | none => rfl
        | some s => exact ih ⟨f, hfr, b, hp, hu⟩ (some s)

/-- Modelled from the spec: base-128 varint encoding, low groups first. -/
def encodeVarint (n : Nat) : List Nat :=
  if n < 128 then [n]
  else (n % 128 + 128) :: encodeVarint (n / 128)
termination_by n
decreasing_by exact Nat.div_lt_self (by omega) (by omega)

/-- Modelled from the spec: `write_protobuf_field` for a length-delimited
value — tag varint (number times 8 plus wire type 2), length varint, payload. -/
def encodeLenField (num : Nat) (payload : List Nat) : List Nat :=
  encodeVarint (num * 8 + 2) ++ (encodeVarint payload.length ++ payload)

theorem readVarint_encode (n : Nat) (rest : List Nat) :
    readVarint (encodeVarint n ++ rest) = some (n, rest) := by
  induction n using Nat.strong_induction_on with
  | _ n ih =>
    rw [encodeVarint]
    split
    · simp [readVarint, *]
    · rename_i h
      simp only [List.cons_append, readVarint, List.append_eq]
      rw [if_neg (by omega)]
      rw [ih (n / 128) (Nat.div_lt_self (by omega) (by omega))]
      simp only
      congr 2
      omega

theorem takeExact_append (p rest : List Nat) :
    takeExact p.length (p ++ rest) = some (p, rest) := by
  unfold takeExact
  rw [dif_pos (by simp)]
  simp

theorem readField_encodeLenField (num : Nat) (hnum : num ≠ 0)
    (payload rest : List Nat) :
    readField (encodeLenField num payload ++ rest) =
      some (⟨num, .len payload⟩, rest) := by
  unfold encodeLenField readField
  rw [List.append_assoc, readVarint_encode]
  have hq : (num * 8 + 2) / 8 = num := by omega
  have hr : (num * 8 + 2) % 8 = 2 := by omega
  simp only [hq, hr]
  rw [if_neg hnum]
  norm_num
  rw [readVarint_encode]
  simp only
  rw [takeExact_append]

theorem readField_nil : readField [] = none := rfl

theorem readFields_cons_of_readField {l rest : List Nat} {f : Field}
    (hf : readField l = some (f, rest)) {fs : List Field}
    (hfs : readFields rest = some fs) : readFields l = some (f :: fs) := by
  cases l with
  | nil => rw [readField_nil] at hf; cases hf
  | cons b bs =>
    rw [readFields]
    split
    · rename_i heq
      rw [heq] at hf; cases hf
    · rename_i f1 rest1 heq
      rw [heq] at hf
      cases hf
      rw [hfs]

theorem readFields_encodeLenField (num : Nat) (hnum : num ≠ 0)
    (payload l : List Nat) {fs : List Field} (h : readFields l = some fs) :
    readFields (encodeLenField num payload ++ l) =
      some (⟨num, .len payload⟩ :: fs) :=
  readFields_cons_of_readField (readField_encodeLenField num hnum payload l) h

/-! Field-number constants from `src/bin/src/main.rs` and
`src/lib/tests/compiler_plugin.rs`. -/

def CODE_GENERATOR_REQUEST_PARAMETER_FIELD_NUMBER : Nat := 2

def CODE_GENERATOR_REQUEST_PROTO_FILE_FIELD_NUMBER : Nat := 15

def CODE_GENERATOR_RESPONSE_FILE_FIELD_NUMBER : Nat := 15

def FILE_NAME_FIELD_NUMBER : Nat := 1

def FILE_CONTENT_FIELD_NUMBER : Nat := 15

/-- Embedding of `File` from `src/lib/tests/compiler_plugin.rs`.  Rust
strings are carried as their UTF-8 byte sequences; `is_empty` on the string
is emptiness of the byte list. -/
structure File : Type where
  name : List Nat
  content : List Nat
deriving DecidableEq, Repr

/-- Embedding of `CodeGeneratorResponse` from
`src/lib/tests/compiler_plugin.rs`. -/
structure CodeGeneratorResponse : Type where
  files : List File
deriving DecidableEq, Repr

/-- The bytes `CodeGeneratorResponse::to_bytes` accumulates for one file
before wrapping them in the outer field: the name as string field 1 when
non-empty, then the content as string field 15 when non-empty. -/
def fileToBytes (f : File) : List Nat :=
  (if f.name = [] then [] else encodeLenField FILE_NAME_FIELD_NUMBER f.name) ++
  (if f.content = [] then [] else encodeLenField FILE_CONTENT_FIELD_NUMBER f.content)

/-- Embedding of `CodeGeneratorResponse::to_bytes` from
`src/lib/tests/compiler_plugin.rs`: each file becomes one length-delimited
field with number 15, in file order; the returned byte list is what the Rust
code writes to the writer (its returned `usize` is this list's length). -/
def CodeGeneratorResponse.to_bytes (r : CodeGeneratorResponse) : List Nat :=
  (r.files.map fun f =>
    encodeLenField CODE_GENERATOR_RESPONSE_FILE_FIELD_NUMBER (fileToBytes f)).flatten

/-- Embedding of `CodeGeneratorRequest` from
`src/lib/tests/compiler_plugin.rs`. -/
structure CodeGeneratorRequest : Type where
  proto_file_count : Nat
deriving DecidableEq, Repr

/-- The per-field test `CodeGeneratorRequest::from_bytes` applies: field
number 15 with a length-delimited value. -/
def isProtoFileField (f : Field) : Bool :=
  f.num == CODE_GENERATOR_REQUEST_PROTO_FILE_FIELD_NUMBER &&
    match f.value with
    | .len _ => true
    | _ => false

/-- Embedding of `CodeGeneratorRequest::from_bytes` from
`src/lib/tests/compiler_plugin.rs`: count length-delimited occurrences of
field 15, failing if any wire field fails to decode (the `IoError` wrapping
is collapsed to `Unit`). -/
def CodeGeneratorRequest.from_bytes (bytes : List Nat) :
    Except Unit CodeGeneratorRequest :=
  match readFields bytes with
  | none => .error ()
  | some fs => .ok ⟨fs.countP (fun f => isProtoFileField f)⟩

/-- Environment oracle for the stand-in executable's IPC and I/O effects:
whether each fallible operation of `main` succeeds, and what, if anything,
arrives on the response channel. -/
structure IpcEnv : Type where
  connectOk : Bool
  channelsOk : Bool
  sendHandlesOk : Bool
  sendReqOk : Bool
  recvResult : Option (List Nat)
  writeOk : Bool
deriving DecidableEq, Repr

/-- Observable outcome of one run of the stand-in executable: the bytes that
reached standard output, whether the process exited zero, and the message (if
any) delivered on the request channel. -/
structure MainResult : Type where
  stdout : List Nat
  exitZero : Bool
  reqSent : Option (List Nat)
deriving DecidableEq, Repr

/-- Embedding of `main` from `src/bin/src/main.rs`.  The bytes read from
standard input are the `input` parameter; each `?`-propagated failure exits
non-zero with nothing on standard output and, once past the scan, nothing yet
sent on the request channel.  A failed final write is modelled as empty
standard output. -/
def mainRun (input : List Nat) (env : IpcEnv) : MainResult :=
  match find_last_string_field input CODE_GENERATOR_REQUEST_PARAMETER_FIELD_NUMBER with
  | .error _ => ⟨[], false, none⟩
  | .ok none => ⟨[], false, none⟩
  | .ok (some _key) =>
    if env.connectOk then
      if env.channelsOk then
        if env.sendHandlesOk then
          if env.sendReqOk then
            match env.recvResult with
            | none => ⟨[], false, some input⟩
            | some response =>
              if env.writeOk then ⟨response, true, some input⟩
              else ⟨[], false, some input⟩
          else ⟨[], false, none⟩
        else ⟨[], false, none⟩
      else ⟨[], false, none⟩
    else ⟨[], false, none⟩

theorem readFields_nil : readFields [] = some [] := by
  simp [readFields]

theorem readFields_encodeLenField_nil (num : Nat) (hnum : num ≠ 0)
    (p : List Nat) : readFields (encodeLenField num p) = some [⟨num, .len p⟩] := by
  have h := readFields_encodeLenField num hnum p [] readFields_nil
  simpa using h

theorem readFields_fileToBytes (f : File) :
    readFields (fileToBytes f) = some
      ((if f.name = [] then [] else [⟨FILE_NAME_FIELD_NUMBER, .len f.name⟩]) ++
       (if f.content = [] then [] else [⟨FILE_CONTENT_FIELD_NUMBER, .len f.content⟩])) := by
  unfold fileToBytes
  by_cases hn : f.name = [] <;> by_cases hc : f.content = [] <;>
    simp only [hn, hc, if_true, if_false, List.nil_append, List.append_nil]
  · exact readFields_nil
  · exact readFields_encodeLenField_nil _ (by norm_num [FILE_CONTENT_FIELD_NUMBER]) _
  · exact readFields_encodeLenField_nil _ (by norm_num [FILE_NAME_FIELD_NUMBER]) _
  · exact readFields_encodeLenField _ (by norm_num [FILE_NAME_FIELD_NUMBER]) _ _
      (readFields_encodeLenField_nil _ (by norm_num [FILE_CONTENT_FIELD_NUMBER]) _)

theorem readFields_to_bytes_aux (files : List File) :
    readFields ((files.map fun f =>
        encodeLenField CODE_GENERATOR_RESPONSE_FILE_FIELD_NUMBER (fileToBytes f)).flatten) =
      some (files.map fun f =>
        ⟨CODE_GENERATOR_RESPONSE_FILE_FIELD_NUMBER, .len (fileToBytes f)⟩) := by
  induction files with
  | nil => simpa using readFields_nil
  | cons f rest ih =>
    simp only [List.map_cons, List.flatten_cons]
    exact readFields_encodeLenField _
      (by norm_num [CODE_GENERATOR_RESPONSE_FILE_FIELD_NUMBER]) _ _ ih

theorem readFields_to_bytes (r : CodeGeneratorResponse) :
    readFields r.to_bytes =
      some (r.files.map fun f =>
        ⟨CODE_GENERATOR_RESPONSE_FILE_FIELD_NUMBER, .len (fileToBytes f)⟩) :=
  readFields_to_bytes_aux r.files

/-- Option-valued traversal of a list, failing when any element fails. -/
def mapMOption {α β : Type} (f : α → Option β) : List α → Option (List β)
  | [] => some []
  | a :: l =>
    match f a with
    | none => none
    | some b =>
      match mapMOption f l with
      | none => none
      | some bs => some (b :: bs)

/-- Modelled from the spec: the external compiler materializes one response
file entry from its serialized payload — the name is the string field with
number 1 and the content the string field with number 15, the last occurrence
winning and a missing field defaulting to empty. -/
def materializeFile (payload : List Nat) : Option (List Nat × List Nat) :=
  match readFields payload with
  | none => none
  | some fs =>
    some ((lastLenOf fs FILE_NAME_FIELD_NUMBER).getD [],
          (lastLenOf fs FILE_CONTENT_FIELD_NUMBER).getD [])

/-- Modelled from the spec: the external compiler reads the plugin's
serialized generation response — each length-delimited field with number 15
is one generated file entry — and writes each entry into the output
directory, in order. -/
def materializeResponse (bytes : List Nat) :
    Option (List (List Nat × List Nat)) :=
  match readFields bytes with
  | none => none
  | some fs =>
    mapMOption materializeFile
      (fs.filterMap (lenPayload CODE_GENERATOR_RESPONSE_FILE_FIELD_NUMBER))

theorem materializeFile_fileToBytes (f : File) :
    materializeFile (fileToBytes f) = some (f.name, f.content) := by
  unfold materializeFile
  rw [readFields_fileToBytes]
  by_cases hn : f.name = [] <;> by_cases hc : f.content = [] <;>
    simp [hn, hc, lastLenOf, lenPayload, FILE_NAME_FIELD_NUMBER,
      FILE_CONTENT_FIELD_NUMBER]

theorem mapM_materializeFile (files : List File) :
    mapMOption materializeFile (files.map fileToBytes) =
      some (files.map fun f => (f.name, f.content)) := by
  induction files with
  | nil => rfl
  | cons f rest ih =>
    simp [mapMOption, materializeFile_fileToBytes, ih]

theorem materializeResponse_to_bytes (r : CodeGeneratorResponse) :
    materializeResponse r.to_bytes =
      some (r.files.map fun f => (f.name, f.content)) := by
  unfold materializeResponse
  rw [readFields_to_bytes]
  simp only
  rw [List.filterMap_map]
  have hpay : (lenPayload CODE_GENERATOR_RESPONSE_FILE_FIELD_NUMBER ∘ fun f : File =>
      Field.mk CODE_GENERATOR_RESPONSE_FILE_FIELD_NUMBER (.len (fileToBytes f))) =
      (fun f => some (fileToBytes f)) := by
    funext f
    simp [lenPayload]
  rw [hpay]
  have hmap : ∀ l : List File,
      l.filterMap (fun f => some (fileToBytes f)) = l.map fileToBytes := by
    intro l
    induction l with
    | nil => rfl
    | cons a t ih => simp [List.filterMap_cons, ih]
  rw [hmap, mapM_materializeFile]

/-- Modelled from the spec: a stand-in for the descriptor bytes the external
compiler serializes for one virtual input file (its name as string field 1);
the bridge never interprets these bytes, only their field framing matters. -/
def descriptorBytes (input : List Nat × List Nat) : List Nat :=
  encodeLenField 1 input.1

/-- Modelled from the spec: the generation request the external compiler
feeds the plugin — the rendezvous key echoed in the parameter field (2) and
one length-delimited descriptor field (15) per input file. -/
def buildRequest (inputs : List (List Nat × List Nat)) (key : List Nat) :
    List Nat :=
  encodeLenField CODE_GENERATOR_REQUEST_PARAMETER_FIELD_NUMBER key ++
    (inputs.map fun i =>
      encodeLenField CODE_GENERATOR_REQUEST_PROTO_FILE_FIELD_NUMBER
        (descriptorBytes i)).flatten

/-- Modelled from the spec: the on-memory adapter's `run` on its successful
non-timeout path — materialize the inputs into a scaffold, let the compiler
build the request and the callback answer it, materialize the callback's
serialized response into the output scaffold, read every produced file back
as a (name, content) pair in order, and remove both scaffold directories on
every exit path (the returned Boolean records that removal). -/
def protocOnMemoryRun (inputs : List (List Nat × List Nat)) (key : List Nat)
    (callback : List Nat → Except Unit (List Nat)) :
    Except Unit (List (List Nat × List Nat)) × Bool :=
  match callback (buildRequest inputs key) with
  | .error _ => (.error (), true)
  | .ok resBytes =>
    match materializeResponse resBytes with
    | none => (.error (), true)
    | some outs => (.ok outs, true)

theorem findSome?_append {α β : Type} (l1 l2 : List α) (p : α → Option β) :
    (l1 ++ l2).findSome? p =
      match l1.findSome? p with
      | some b => some b
      | none => l2.findSome? p := by
  induction l1 with
  | nil => simp [List.findSome?]
  | cons a t ih =>
    simp only [List.cons_append, List.findSome?]
    cases p a with
    | none => simpa using ih
    | some b => simp

theorem lastLenOf_eq (fs : List Field) (target : Nat) :
    lastLenOf fs target = fs.reverse.findSome? (lenPayload target) := by
  induction fs with
  | nil => rfl
  | cons f rest ih =>
    rw [lastLenOf, ih, List.reverse_cons, findSome?_append]
    cases rest.reverse.findSome? (lenPayload target) with
    | none =>
      simp only [List.findSome?]
      cases lenPayload target f <;> simp
    | some b => simp

theorem lastLenOf_mem {fs : List Field} {target : Nat} {b : List Nat}
    (h : lastLenOf fs target = some b) :
    ∃ f ∈ fs, lenPayload target f = some b := by
  induction fs with
  | nil => rw [lastLenOf] at h; cases h
  | cons f rest ih =>
    rw [lastLenOf] at h
    cases hr : lastLenOf rest target with
    | some b1 =>
      rw [hr] at h
      cases h
      obtain ⟨g, hg, hp⟩ := ih hr
      exact ⟨g, List.mem_cons_of_mem f hg, hp⟩
    | none =>
      rw [hr] at h
      exact ⟨f, List.mem_cons_self f rest, h⟩

/-- C1 (amended): for every byte buffer whose wire fields all decode
successfully and in which every length-delimited occurrence of the target
field number carries a valid UTF-8 payload, `find_last_string_field` returns
the decoded value of the last length-delimited occurrence of that field
number, or `none` when no length-delimited occurrence of that number exists;
occurrences with a non-length-delimited wire value and fields with other
numbers contribute nothing (their `lenPayload` is `none`). -/
theorem C1_find_last_string_field_returns_last (input : List Nat)
    (target : Nat) (fs : List Field) (hdec : readFields input = some fs)
    (hutf : ∀ f ∈ fs, ∀ b, lenPayload target f = some b →
      (utf8Decode b).isSome) :
    (fs.reverse.findSome? (lenPayload target) = none →
      find_last_string_field input target = Except.ok none) ∧
    (∀ b, fs.reverse.findSome? (lenPayload target) = some b →
      ∃ s, utf8Decode b = some s ∧
        find_last_string_field input target = Except.ok (some s)) := by
  have hbridge : find_last_string_field input target = scanFields fs target none := by
    unfold find_last_string_field
    rw [find_last_string_field_aux_eq target input.length input
      (Nat.le_refl _) none, hdec]
  have hscan := scanFields_ok target fs hutf none
  rw [← lastLenOf_eq]
  constructor
  · intro hnone
    rw [hbridge, hscan, hnone]
  · intro b hb
    obtain ⟨f, hf, hp⟩ := lastLenOf_mem hb
    obtain ⟨s, hs⟩ := Option.isSome_iff_exists.mp (hutf f hf b hp)
    refine ⟨s, hs, ?_⟩
    rw [hbridge, hscan, hb]
    simp only
    rw [hs]

/-- C1 counterexample: in the buffer below every wire field decodes (two
length-delimited occurrences of field 1), the last occurrence's payload `[97]`
decodes as UTF-8, yet `find_last_string_field` returns an error instead of
that value, because the earlier occurrence's payload `[255]` is not UTF-8. -/
theorem C1_counterexample :
    readFields [10, 1, 255, 10, 1, 97] =
      some [⟨1, .len [255]⟩, ⟨1, .len [97]⟩] ∧
    lastLenOf [⟨1, .len [255]⟩, ⟨1, .len [97]⟩] 1 = some [97] ∧
    utf8Decode [97] = some [97] ∧
    find_last_string_field [10, 1, 255, 10, 1, 97] 1 = Except.error () := by
  refine ⟨?_, by decide, by decide, ?_⟩
  · simp [readFields, readField, readVarint, takeExact]
  · simp only [find_last_string_field, find_last_string_field_aux, readField,
      readVarint, takeExact]
    rfl

/-- C1 witness at a concrete buffer: a varint occurrence of field 1, two
length-delimited occurrences of field 1, and one of field 2; the scan returns
the last length-delimited occurrence of field 1, decoded. -/
theorem C1_witness :
    readFields [8, 5, 10, 1, 97, 10, 1, 98, 18, 1, 99] =
      some [⟨1, .varint 5⟩, ⟨1, .len [97]⟩, ⟨1, .len [98]⟩, ⟨2, .len [99]⟩] ∧
    (∀ f ∈ ([⟨1, .varint 5⟩, ⟨1, .len [97]⟩, ⟨1, .len [98]⟩,
        ⟨2, .len [99]⟩] : List Field), ∀ b, lenPayload 1 f = some b →
      (utf8Decode b).isSome) ∧
    find_last_string_field [8, 5, 10, 1, 97, 10, 1, 98, 18, 1, 99] 1 =
      Except.ok (some [98]) := by
  have h1 : readFields [8, 5, 10, 1, 97, 10, 1, 98, 18, 1, 99] =
      some [⟨1, .varint 5⟩, ⟨1, .len [97]⟩, ⟨1, .len [98]⟩, ⟨2, .len [99]⟩] := by
    simp [readFields, readField, readVarint, takeExact]
  have h2 : ∀ f ∈ ([⟨1, .varint 5⟩, ⟨1, .len [97]⟩, ⟨1, .len [98]⟩,
      ⟨2, .len [99]⟩] : List Field), ∀ b, lenPayload 1 f = some b →
      (utf8Decode b).isSome := by decide
  obtain ⟨s, hs, hres⟩ :=
    (C1_find_last_string_field_returns_last _ 1 _ h1 h2).2 [98] (by decide)
  have h98 : utf8Decode [98] = some [98] := by decide
  rw [h98] at hs
  injection hs with hs2
  subst hs2
  exact ⟨h1, h2, hres⟩

/-- C2: whenever some wire field of the input fails to decode, the whole scan
of `find_last_string_field` returns a decoding error — never a best-effort
result — regardless of the target field number and hence regardless of any
valid occurrence matched before the malformed tail. -/
theorem C2_scan_error_on_malformed (input : List Nat) (target : Nat)
    (h : readFields input = none) :
    find_last_string_field input target = Except.error () := by
  unfold find_last_string_field
  rw [find_last_string_field_aux_eq target input.length input
    (Nat.le_refl _) none, h]

/-- C2 witness: a buffer holding a valid length-delimited occurrence of
field 1 followed by a truncated field (a tag varint with its value missing);
the scan errors despite the earlier valid match. -/
theorem C2_witness :
    readFields [10, 1, 97, 8] = none ∧
    find_last_string_field [10, 1, 97, 8] 1 = Except.error () := by
  have h : readFields [10, 1, 97, 8] = none := by
    simp [readFields, readField, readVarint, takeExact]
  exact ⟨h, C2_scan_error_on_malformed [10, 1, 97, 8] 1 h⟩

/-- C3: when the scan of the parameter field (number 2) yields no rendezvous
key, the stand-in executable writes nothing to standard output, exits
non-zero, and sends nothing on the request channel, whatever the IPC
environment would have allowed. -/
theorem C3_missing_key_fails (input : List Nat) (env : IpcEnv)
    (h : find_last_string_field input
      CODE_GENERATOR_REQUEST_PARAMETER_FIELD_NUMBER = Except.ok none) :
    mainRun input env = ⟨[], false, none⟩ := by
  unfold mainRun
  rw [h]

/-- C3 witness: the empty input decodes to no fields at all, so no key is
extracted and the run fails cleanly. -/
theorem C3_witness :
    find_last_string_field [] CODE_GENERATOR_REQUEST_PARAMETER_FIELD_NUMBER =
      Except.ok none ∧
    mainRun [] ⟨true, true, true, true, some [1], true⟩ = ⟨[], false, none⟩ := by
  have h : find_last_string_field []
      CODE_GENERATOR_REQUEST_PARAMETER_FIELD_NUMBER = Except.ok none := by
    simp [find_last_string_field, find_last_string_field_aux]
  exact ⟨h, C3_missing_key_fails [] _ h⟩

/-- C4: once the rendezvous key is extracted and the connection, channel
creation, and handle transfer succeed, the message delivered on the request
channel is exactly the original input byte buffer, and it is the only message
the stand-in ever sends there (the model records at most one). -/
theorem C4_sends_input_unmodified (input : List Nat) (env : IpcEnv)
    (key : List Nat)
    (hscan : find_last_string_field input
      CODE_GENERATOR_REQUEST_PARAMETER_FIELD_NUMBER = Except.ok (some key))
    (hconn : env.connectOk = true) (hch : env.channelsOk = true)
    (hhand : env.sendHandlesOk = true) (hsend : env.sendReqOk = true) :
    (mainRun input env).reqSent = some input := by
  unfold mainRun
  rw [hscan]
  simp only [hconn, hch, hhand, hsend, if_true]
  cases env.recvResult with
  | none => rfl
  | some response =>
    by_cases hw : env.writeOk <;> simp [hw]

/-- C4 witness: a request carrying the key in field 2 is forwarded whole. -/
theorem C4_witness :
    find_last_string_field [18, 1, 97]
      CODE_GENERATOR_REQUEST_PARAMETER_FIELD_NUMBER = Except.ok (some [97]) ∧
    (mainRun [18, 1, 97] ⟨true, true, true, true, some [5], true⟩).reqSent =
      some [18, 1, 97] := by
  have h : find_last_string_field [18, 1, 97]
      CODE_GENERATOR_REQUEST_PARAMETER_FIELD_NUMBER = Except.ok (some [97]) := by
    simp [find_last_string_field, find_last_string_field_aux, readField,
      readVarint, takeExact, CODE_GENERATOR_REQUEST_PARAMETER_FIELD_NUMBER]
    rfl
  exact ⟨h, C4_sends_input_unmodified [18, 1, 97] _ [97] h rfl rfl rfl rfl⟩

/-- C5: when a message arrives on the response channel (and the final write
succeeds), the stand-in writes exactly those bytes to standard output and
exits zero. -/
theorem C5_writes_response_verbatim (input : List Nat) (env : IpcEnv)
    (key response : List Nat)
    (hscan : find_last_string_field input
      CODE_GENERATOR_REQUEST_PARAMETER_FIELD_NUMBER = Except.ok (some key))
    (hconn : env.connectOk = true) (hch : env.channelsOk = true)
    (hhand : env.sendHandlesOk = true) (hsend : env.sendReqOk = true)
    (hrecv : env.recvResult = some response) (hw : env.writeOk = true) :
    (mainRun input env).stdout = response ∧
    (mainRun input env).exitZero = true := by
  unfold mainRun
  rw [hscan]
  simp [hconn, hch, hhand, hsend, hrecv, hw]

/-- C5 witness: the received bytes `[5, 6]` appear verbatim on standard
output and the process exits zero. -/
theorem C5_witness :
    find_last_string_field [18, 1, 97]
      CODE_GENERATOR_REQUEST_PARAMETER_FIELD_NUMBER = Except.ok (some [97]) ∧
    (mainRun [18, 1, 97] ⟨true, true, true, true, some [5, 6], true⟩).stdout =
      [5, 6] ∧
    (mainRun [18, 1, 97] ⟨true, true, true, true, some [5, 6], true⟩).exitZero =
      true := by
  have h : find_last_string_field [18, 1, 97]
      CODE_GENERATOR_REQUEST_PARAMETER_FIELD_NUMBER = Except.ok (some [97]) := by
    simp [find_last_string_field, find_last_string_field_aux, readField,
      readVarint, takeExact, CODE_GENERATOR_REQUEST_PARAMETER_FIELD_NUMBER]
    rfl
  have hc := C5_writes_response_verbatim [18, 1, 97]
    ⟨true, true, true, true, some [5, 6], true⟩ [97] [5, 6] h
    rfl rfl rfl rfl rfl rfl
  exact ⟨h, hc.1, hc.2⟩

/-- C7: with one virtual input file and a callback that returns one named
file, the modelled on-memory run returns exactly that (name, content) pair
and the scaffold directories are removed. -/
theorem C7_on_memory_round_trip (input : List Nat × List Nat)
    (key name content : List Nat) :
    protocOnMemoryRun [input] key
        (fun _ => Except.ok (CodeGeneratorResponse.to_bytes ⟨[⟨name, content⟩]⟩)) =
      (Except.ok [(name, content)], true) := by
  unfold protocOnMemoryRun
  simp only
  rw [materializeResponse_to_bytes ⟨[⟨name, content⟩]⟩]
  rfl

/-- C8: `to_bytes` writes, in file order, one length-delimited wire field
with number 15 per file; each such payload decodes to the file's name as a
string field with number 1 exactly when the name is non-empty, followed by
the file's content as a string field with number 15 exactly when the content
is non-empty (string fields carry the string's UTF-8 bytes). -/
theorem C8_to_bytes_layout (r : CodeGeneratorResponse) :
    readFields r.to_bytes =
      some (r.files.map fun f =>
        ⟨CODE_GENERATOR_RESPONSE_FILE_FIELD_NUMBER, .len (fileToBytes f)⟩) ∧
    ∀ f : File, readFields (fileToBytes f) =
      some ((if f.name = [] then []
              else [⟨FILE_NAME_FIELD_NUMBER, .len f.name⟩]) ++
            (if f.content = [] then []
              else [⟨FILE_CONTENT_FIELD_NUMBER, .len f.content⟩])) :=
  ⟨readFields_to_bytes r, readFields_fileToBytes⟩

/-- C9: if any length-delimited occurrence of the target field number — not
only the last — has a payload that is not valid UTF-8, the scan returns an
error, even when a later length-delimited occurrence decodes fine. -/
theorem C9_invalid_utf8_occurrence_errors (input : List Nat) (target : Nat)
    (fs : List Field) (hdec : readFields input = some fs)
    (hbad : ∃ f ∈ fs, ∃ b, lenPayload target f = some b ∧ utf8Decode b = none) :
    find_last_string_field input target = Except.error () := by
  unfold find_last_string_field
  rw [find_last_string_field_aux_eq target input.length input
    (Nat.le_refl _) none, hdec]
  exact scanFields_error target fs hbad none

/-- C9 witness: the first occurrence's payload `[255]` is invalid UTF-8 while
the later occurrence `[97]` is valid, and the scan errors. -/
theorem C9_witness :
    readFields [10, 1, 255, 10, 1, 97] =
      some [⟨1, .len [255]⟩, ⟨1, .len [97]⟩] ∧
    (∃ f ∈ ([⟨1, .len [255]⟩, ⟨1, .len [97]⟩] : List Field), ∃ b,
      lenPayload 1 f = some b ∧ utf8Decode b = none) ∧
    utf8Decode [97] = some [97] ∧
    find_last_string_field [10, 1, 255, 10, 1, 97] 1 = Except.error () := by
  have h1 : readFields [10, 1, 255, 10, 1, 97] =
      some [⟨1, .len [255]⟩, ⟨1, .len [97]⟩] := by
    simp [readFields, readField, readVarint, takeExact]
  have h2 : ∃ f ∈ ([⟨1, .len [255]⟩, ⟨1, .len [97]⟩] : List Field), ∃ b,
      lenPayload 1 f = some b ∧ utf8Decode b = none := by decide
  exact ⟨h1, h2, by decide,
    C9_invalid_utf8_occurrence_errors [10, 1, 255, 10, 1, 97] 1 _ h1 h2⟩

/-- C10: serializing any `CodeGeneratorResponse` with `to_bytes` and parsing
the bytes with `CodeGeneratorRequest::from_bytes` succeeds and counts exactly
one proto file per serialized file, since both sides use length-delimited
wire field number 15. -/
theorem C10_serialize_parse_count (r : CodeGeneratorResponse) :
    CodeGeneratorRequest.from_bytes r.to_bytes =
      Except.ok ⟨r.files.length⟩ := by
  unfold CodeGeneratorRequest.from_bytes
  rw [readFields_to_bytes]
  simp only
  have hcount : ∀ l : List File,
      (l.map fun f => Field.mk CODE_GENERATOR_RESPONSE_FILE_FIELD_NUMBER
        (FieldValue.len (fileToBytes f))).countP
          (fun f => isProtoFileField f) = l.length := by
    intro l
    induction l with
    | nil => rfl
    | cons a t ih => simp [List.countP_cons, ih, isProtoFileField,
        CODE_GENERATOR_RESPONSE_FILE_FIELD_NUMBER,
        CODE_GENERATOR_REQUEST_PROTO_FILE_FIELD_NUMBER]
  rw [hcount]

end ProtocPluginByClosure
